import Mathlib

set_option maxHeartbeats 1000000
set_option maxRecDepth 20000

namespace Poly

/-- The seven basic note lengths, in the source's declaration order
(`enum BasicLength` in `dsl.rs`). -/
inductive BasicLength where
  | Whole
  | Half
  | Fourth
  | Eighth
  | Sixteenth
  | ThirtySecond
  | SixtyFourth
  deriving DecidableEq, Repr

/-- Tick count of a `BasicLength` at 128 ticks per whole note
(`impl KnownLength for BasicLength`, `to_128th`). -/
def BasicLength.to_128th : BasicLength → Nat
  | .Whole => 128
  | .Half => 64
  | .Fourth => 32
  | .Eighth => 16
  | .Sixteenth => 8
  | .ThirtySecond => 4
  | .SixtyFourth => 2

/-- `BasicLength::from_num`: builds a `BasicLength` from its half-tick value. -/
def BasicLength.from_num (n : Nat) : Except String BasicLength :=
  if n = 1 then .ok .SixtyFourth
  else if n = 2 then .ok .ThirtySecond
  else if n = 4 then .ok .Sixteenth
  else if n = 8 then .ok .Eighth
  else if n = 16 then .ok .Fourth
  else if n = 32 then .ok .Half
  else if n = 64 then .ok .Whole
  else .error (toString n ++ " is not a num BasicLength can be constructed from")

/-- A plain or dotted basic length (`enum ModdedLength`). -/
inductive ModdedLength where
  | Plain (bl : BasicLength)
  | Dotted (bl : BasicLength)
  deriving DecidableEq, Repr

/-- `impl KnownLength for ModdedLength`. -/
def ModdedLength.to_128th : ModdedLength → Nat
  | .Plain bl => bl.to_128th
  | .Dotted bl => bl.to_128th + bl.to_128th / 2

/-- A simple, tied or triplet length (`enum Length`). -/
inductive Length where
  | Simple (ml : ModdedLength)
  | Tied (ml1 ml2 : ModdedLength)
  | Triplet (ml : ModdedLength)
  deriving DecidableEq, Repr

/-- `impl KnownLength for Length`. -/
def Length.to_128th : Length → Nat
  | .Simple ml => ml.to_128th
  | .Tied ml1 ml2 => ml1.to_128th + ml2.to_128th
  | .Triplet ml => ml.to_128th * 2 / 3

/-- An atomic onset or silence (`enum Note`). -/
inductive Note where
  | Hit
  | Rest
  deriving DecidableEq, Repr

/-- `struct Times(pub u16)`: a group's repeat count. -/
structure Times where
  val : Nat
  deriving DecidableEq, Repr

mutual

/-- A child slot of a `Group` (`enum GroupOrNote`). -/
inductive GroupOrNote where
  | SingleGroup (g : Group)
  | SingleNote (n : Note)

/-- `struct Group`: notes, a uniform length, and a repeat count. -/
inductive Group where
  | mk (notes : List GroupOrNote) (length : Length) (times : Times)

end

/-- Field accessor for `Group.notes`. -/
def Group.notes : Group → List GroupOrNote
  | .mk ns _ _ => ns

/-- Field accessor for `Group.length`. -/
def Group.length : Group → Length
  | .mk _ l _ => l

/-- Field accessor for `Group.times`. -/
def Group.times : Group → Times
  | .mk _ _ t => t

mutual

/-- `impl KnownLength for Group`: sum of children contributions times the
repeat count. -/
def Group.to_128th : Group → Nat
  | .mk notes len t => (sumNotes128 notes len.to_128th) * t.val

/-- The accumulation loop inside `Group::to_128th`: a leaf contributes the
group's note length, a subgroup contributes its own `to_128th`. -/
def sumNotes128 : List GroupOrNote → Nat → Nat
  | [], _ => 0
  | GroupOrNote.SingleGroup g :: rest, nl => g.to_128th + sumNotes128 rest nl
  | GroupOrNote.SingleNote _ :: rest, nl => nl + sumNotes128 rest nl

end

/-- The local closure `f` inside `impl Add<BasicLength> for BasicLength`:
half-tick values (Whole=64 down to SixtyFourth=1). -/
def BasicLength.halfTicks : BasicLength → Nat
  | .Whole => 64
  | .Half => 32
  | .Fourth => 16
  | .Eighth => 8
  | .Sixteenth => 4
  | .ThirtySecond => 2
  | .SixtyFourth => 1

/-- `impl Add<BasicLength> for BasicLength` (`fn add`). `none` models a
panic of the `unwrap()` calls on `from_num`. -/
def BasicLength.add (self rhs : BasicLength) : Option Length :=
  if self = rhs ∧ self ≠ BasicLength.Whole then
    match BasicLength.from_num (self.halfTicks * 2) with
    | .ok b => some (Length.Simple (ModdedLength.Plain b))
    | .error _ => none
  else
    let n1 := self.halfTicks
    let n2 := rhs.halfTicks
    let total := n1 + n2
    if total > 64 then
      match BasicLength.from_num (total - 64) with
      | .ok b => some (Length.Tied (ModdedLength.Plain BasicLength.Whole) (ModdedLength.Plain b))
      | .error _ => none
    else if total > 32 then
      match BasicLength.from_num (total - 32) with
      | .ok b => some (Length.Tied (ModdedLength.Plain BasicLength.Half) (ModdedLength.Plain b))
      | .error _ => none
    else if total > 16 then
      match BasicLength.from_num (total - 16) with
      | .ok b => some (Length.Tied (ModdedLength.Plain BasicLength.Fourth) (ModdedLength.Plain b))
      | .error _ => none
    else if total > 8 then
      match BasicLength.from_num (total - 8) with
      | .ok b => some (Length.Tied (ModdedLength.Plain BasicLength.Eighth) (ModdedLength.Plain b))
      | .error _ => none
    else if total > 4 then
      match BasicLength.from_num (total - 4) with
      | .ok b => some (Length.Tied (ModdedLength.Plain BasicLength.Fourth) (ModdedLength.Plain b))
      | .error _ => none
    else
      match BasicLength.from_num (total - 2) with
      | .ok b => some (Length.Tied (ModdedLength.Plain BasicLength.Half) (ModdedLength.Plain b))
      | .error _ => none

/-- `struct TimeSignature` from `time.rs`: numerator and denominator. -/
structure TimeSignature where
  numerator : Nat
  denominator : BasicLength
  deriving DecidableEq, Repr

/-- `impl KnownLength for TimeSignature`. -/
def TimeSignature.to_128th (ts : TimeSignature) : Nat :=
  ts.denominator.to_128th * ts.numerator

/-- Declaration index of a `BasicLength` constructor, as used by Rust's
derived `Ord` on a C-like enum (discriminant order). -/
def BasicLength.ctorIdx : BasicLength → Nat
  | .Whole => 0
  | .Half => 1
  | .Fourth => 2
  | .Eighth => 3
  | .Sixteenth => 4
  | .ThirtySecond => 5
  | .SixtyFourth => 6

/-- Derived `Ord` on `BasicLength`: comparison of declaration indices. -/
def blCmp (a b : BasicLength) : Ordering :=
  compare a.ctorIdx b.ctorIdx

/-- Derived `Ord` on `TimeSignature`: lexicographic on the fields in
declaration order (numerator first, then denominator). -/
def tsCmp (t1 t2 : TimeSignature) : Ordering :=
  match compare t1.numerator t2.numerator with
  | .eq => blCmp t1.denominator t2.denominator
  | o => o

/-- Spec-side definition from the spec's words: declaration rank
Whole=0 < Half < Fourth < Eighth < Sixteenth < ThirtySecond < SixtyFourth=6. -/
def rankSpec : BasicLength → Nat
  | .Whole => 0
  | .Half => 1
  | .Fourth => 2
  | .Eighth => 3
  | .Sixteenth => 4
  | .ThirtySecond => 5
  | .SixtyFourth => 6

/-- Spec-side definition from the spec's words: compare Meters first by
numerator, then (on a tie) by the declaration rank of the denominator. -/
def tsCmpSpec (t1 t2 : TimeSignature) : Ordering :=
  match compare t1.numerator t2.numerator with
  | .eq => compare (rankSpec t1.denominator) (rankSpec t2.denominator)
  | o => o

/-- The loop body of `lowest_common_divisor` in `time.rs`: starting at `c`,
search upward for the first value divisible by both `a` and `b`. The fuel
argument bounds the search; it is chosen large enough that it never runs out
for positive inputs. -/
def lcdGo (a b : Nat) : Nat → Nat → Nat
  | 0, c => c
  | fuel+1, c => if c % a = 0 ∧ c % b = 0 then c else lcdGo a b fuel (c + 1)

/-- `lowest_common_divisor` from `time.rs`: brute-force upward search from
`max a b`. -/
def lowest_common_divisor (a b : Nat) : Nat :=
  lcdGo a b (a * b) (max a b)

/-- `TimeSignature::converges` from `time.rs`. The generic
`T: KnownLength` parameter is modelled by an explicit `to128` function. -/
def TimeSignature.converges {T : Type} (self : TimeSignature) (to128 : T → Nat)
    (multiple : List T) : Except String Nat :=
  let bar_len := self.to_128th
  let result := multiple.foldl (fun acc t => lowest_common_divisor (to128 t) acc) bar_len
  let limit := 1000
  let out := result / bar_len
  if limit > out then .ok out else .error "Does not converge"

theorem blCmp_rank (a b : BasicLength) :
    blCmp a b = compare (rankSpec a) (rankSpec b) := by
  cases a <;> cases b <;> decide

/-- Claim C1 (code-bug evidence): at the non-doubling pair
(ThirtySecond, Sixteenth), whose half-tick sum is 6, `add` returns
`Tied(Plain(Fourth), Plain(ThirtySecond))` although the largest half-tick
value strictly below 6 is 4 = Sixteenth; the produced tie is worth 36 ticks
while the two summands are worth 12, so the branch's own remainder
arithmetic (total - 4) contradicts its choice of `Fourth`. -/
theorem claim_C1 :
    BasicLength.add BasicLength.ThirtySecond BasicLength.Sixteenth =
      some (Length.Tied (ModdedLength.Plain BasicLength.Fourth)
        (ModdedLength.Plain BasicLength.ThirtySecond)) ∧
    (Length.Tied (ModdedLength.Plain BasicLength.Fourth)
        (ModdedLength.Plain BasicLength.ThirtySecond)).to_128th = 36 ∧
    BasicLength.ThirtySecond.to_128th + BasicLength.Sixteenth.to_128th = 12 := by
  exact ⟨by decide, by decide, by decide⟩

/-- Claim C6: `to_128th` matches the fixed table on the seven basic lengths,
dotted lengths add half of the plain value, tied lengths add both parts, and
triplet lengths are floor(base times 2 / 3). -/
theorem claim_C6 :
    (BasicLength.Whole.to_128th = 128 ∧ BasicLength.Half.to_128th = 64 ∧
     BasicLength.Fourth.to_128th = 32 ∧ BasicLength.Eighth.to_128th = 16 ∧
     BasicLength.Sixteenth.to_128th = 8 ∧ BasicLength.ThirtySecond.to_128th = 4 ∧
     BasicLength.SixtyFourth.to_128th = 2) ∧
    (∀ b : BasicLength, (ModdedLength.Dotted b).to_128th =
      (ModdedLength.Plain b).to_128th + (ModdedLength.Plain b).to_128th / 2) ∧
    (∀ x y : ModdedLength, (Length.Tied x y).to_128th = x.to_128th + y.to_128th) ∧
    (∀ x : ModdedLength, (Length.Triplet x).to_128th = x.to_128th * 2 / 3) := by
  exact ⟨by decide, fun b => rfl, fun x y => rfl, fun x => rfl⟩

/-- Claim C7: the derived ordering on `TimeSignature` is lexicographic on
(numerator, declaration rank of the denominator) and is not a comparison of
actual duration: 3-Sixteenth compares less than 4-Fourth, and 4-Fourth
compares greater than 2-Half although both last 128 ticks. -/
theorem claim_C7 :
    (∀ t1 t2 : TimeSignature, tsCmp t1 t2 = tsCmpSpec t1 t2) ∧
    tsCmp ⟨3, BasicLength.Sixteenth⟩ ⟨4, BasicLength.Fourth⟩ = Ordering.lt ∧
    tsCmp ⟨4, BasicLength.Fourth⟩ ⟨2, BasicLength.Half⟩ = Ordering.gt ∧
    TimeSignature.to_128th ⟨4, BasicLength.Fourth⟩ =
      TimeSignature.to_128th ⟨2, BasicLength.Half⟩ := by
  refine ⟨?_, by decide, by decide, by decide⟩
  intro t1 t2
  unfold tsCmp tsCmpSpec
  cases compare t1.numerator t2.numerator
  · rfl
  · exact blCmp_rank t1.denominator t2.denominator
  · rfl

theorem lcdGo_eq_lcm (a b : Nat) (ha : 0 < a) (hb : 0 < b) :
    ∀ fuel c, 0 < c → c ≤ Nat.lcm a b → Nat.lcm a b ≤ c + fuel →
      lcdGo a b fuel c = Nat.lcm a b := by
  intro fuel
  induction fuel with
  | zero =>
    intro c hc hle hge
    have : c = Nat.lcm a b := le_antisymm hle (by omega)
    simpa [lcdGo] using this
  | succ n ih =>
    intro c hc hle hge
    by_cases hdvd : c % a = 0 ∧ c % b = 0
    · have hdvda : a ∣ c := Nat.dvd_of_mod_eq_zero hdvd.1
      have hdvdb : b ∣ c := Nat.dvd_of_mod_eq_zero hdvd.2
      have hlc : Nat.lcm a b ∣ c := Nat.lcm_dvd hdvda hdvdb
      have h2 : Nat.lcm a b ≤ c := Nat.le_of_dvd hc hlc
      have hceq : c = Nat.lcm a b := le_antisymm hle h2
      have hstep : lcdGo a b (n + 1) c = c := by
        simp [lcdGo, hdvd.1, hdvd.2]
      rw [hstep, hceq]
    · have hne : c ≠ Nat.lcm a b := by
        intro heq
        apply hdvd
        constructor
        · obtain ⟨k, hk⟩ := Nat.dvd_lcm_left a b
          rw [heq, hk]
          exact Nat.mul_mod_right a k
        · obtain ⟨k, hk⟩ := Nat.dvd_lcm_right a b
          rw [heq, hk]
          exact Nat.mul_mod_right b k
      have hlt : c < Nat.lcm a b := lt_of_le_of_ne hle hne
      have hstep : lcdGo a b (n + 1) c = lcdGo a b n (c + 1) := by
        simp [lcdGo, hdvd]
      rw [hstep]
      exact ih (c + 1) (by omega) hlt (by omega)

theorem lcmPos {m n : Nat} (hm : 0 < m) (hn : 0 < n) : 0 < Nat.lcm m n := by
  rcases Nat.eq_zero_or_pos (Nat.lcm m n) with h | h
  · exfalso
    have hg := Nat.gcd_mul_lcm m n
    rw [h, Nat.mul_zero] at hg
    have : 0 < m * n := Nat.mul_pos hm hn
    omega
  · exact h

theorem lcd_eq_lcm (a b : Nat) (ha : 0 < a) (hb : 0 < b) :
    lowest_common_divisor a b = Nat.lcm a b := by
  have hpos : 0 < Nat.lcm a b := lcmPos ha hb
  have hmaxle : max a b ≤ Nat.lcm a b :=
    max_le (Nat.le_of_dvd hpos (Nat.dvd_lcm_left a b))
      (Nat.le_of_dvd hpos (Nat.dvd_lcm_right a b))
  have hlcm_ab : Nat.lcm a b ≤ a * b :=
    Nat.le_of_dvd (Nat.mul_pos ha hb)
      (Nat.lcm_dvd (dvd_mul_right a b) (dvd_mul_left b a))
  exact lcdGo_eq_lcm a b ha hb (a * b) (max a b)
    (lt_of_lt_of_le ha (le_max_left a b)) hmaxle (by omega)

/-- Claim C5: for positive inputs, the brute-force upward search from
`max a b` terminates (the fuel bound is never the binding constraint) and
returns the gcd-based least common multiple `a * b / gcd a b`; it is
symmetric in its arguments, and at (128, 96) it returns 384. -/
theorem claim_C5 (a b : Nat) (ha : 1 ≤ a) (hb : 1 ≤ b) :
    lowest_common_divisor a b = a * b / Nat.gcd a b ∧
    lowest_common_divisor a b = lowest_common_divisor b a ∧
    lowest_common_divisor 128 96 = 384 := by
  refine ⟨?_, ?_, ?_⟩
  · rw [lcd_eq_lcm a b ha hb]
    rfl
  · rw [lcd_eq_lcm a b ha hb, lcd_eq_lcm b a hb ha, Nat.lcm_comm]
  · decide

/-- Witness for claim C5 at the concrete pair (128, 96). -/
theorem claim_C5_witness :
    (1 ≤ 128 ∧ 1 ≤ 96) ∧
    (lowest_common_divisor 128 96 = 128 * 96 / Nat.gcd 128 96 ∧
     lowest_common_divisor 128 96 = lowest_common_divisor 96 128 ∧
     lowest_common_divisor 128 96 = 384) :=
  ⟨⟨by decide, by decide⟩, claim_C5 128 96 (by decide) (by decide)⟩

theorem bl_to_128th_pos (b : BasicLength) : 0 < b.to_128th := by
  cases b <;> decide

theorem foldl_lcd_eq_foldl_lcm {T : Type} (to128 : T → Nat) (L : List T) :
    ∀ init : Nat, 0 < init → (∀ t ∈ L, 0 < to128 t) →
      L.foldl (fun acc t => lowest_common_divisor (to128 t) acc) init =
      L.foldl (fun acc t => Nat.lcm (to128 t) acc) init := by
  induction L with
  | nil => intro init _ _; rfl
  | cons x xs ih =>
    intro init hinit hpos
    have hx : 0 < to128 x := hpos x (List.mem_cons_self x xs)
    rw [List.foldl_cons, List.foldl_cons, lcd_eq_lcm _ _ hx hinit]
    exact ih (Nat.lcm (to128 x) init) (lcmPos hx hinit)
      (fun t ht => hpos t (List.mem_cons_of_mem x ht))

theorem converges_eq {T : Type} (ts : TimeSignature) (to128 : T → Nat) (L : List T)
    (hnum : 0 < ts.numerator) (hpos : ∀ t ∈ L, 0 < to128 t) :
    ts.converges to128 L =
      (if (L.foldl (fun acc t => Nat.lcm (to128 t) acc) ts.to_128th) / ts.to_128th < 1000
       then Except.ok ((L.foldl (fun acc t => Nat.lcm (to128 t) acc) ts.to_128th) / ts.to_128th)
       else Except.error "Does not converge") := by
  have hbar : 0 < ts.to_128th := Nat.mul_pos (bl_to_128th_pos ts.denominator) hnum
  simp only [TimeSignature.converges, gt_iff_lt]
  rw [foldl_lcd_eq_foldl_lcm to128 L ts.to_128th hbar hpos]

/-- Claim C2: for a reference meter with positive numerator and a list of
values with positive tick counts, converges folds the least common multiple
starting from the bar's tick count, divides by the bar's tick count, and
returns that quotient exactly when it is below 1000, failing with
"Does not converge" otherwise. -/
theorem claim_C2 {T : Type} (ts : TimeSignature) (to128 : T → Nat) (L : List T)
    (hnum : 0 < ts.numerator) (hpos : ∀ t ∈ L, 0 < to128 t) :
    ts.converges to128 L =
      (if (L.foldl (fun acc t => Nat.lcm (to128 t) acc) ts.to_128th) / ts.to_128th < 1000
       then Except.ok ((L.foldl (fun acc t => Nat.lcm (to128 t) acc) ts.to_128th) / ts.to_128th)
       else Except.error "Does not converge") :=
  converges_eq ts to128 L hnum hpos

/-- Witness for claim C2: the 3-Fourth reference meter against a single
4-Fourth pattern. -/
theorem claim_C2_witness :
    (0 < (TimeSignature.mk 3 BasicLength.Fourth).numerator ∧
     ∀ t ∈ [TimeSignature.mk 4 BasicLength.Fourth], 0 < TimeSignature.to_128th t) ∧
    TimeSignature.converges (TimeSignature.mk 3 BasicLength.Fourth)
        TimeSignature.to_128th [TimeSignature.mk 4 BasicLength.Fourth] =
      (if ([TimeSignature.mk 4 BasicLength.Fourth].foldl
            (fun acc t => Nat.lcm (TimeSignature.to_128th t) acc)
            (TimeSignature.mk 3 BasicLength.Fourth).to_128th) /
            (TimeSignature.mk 3 BasicLength.Fourth).to_128th < 1000
       then Except.ok (([TimeSignature.mk 4 BasicLength.Fourth].foldl
            (fun acc t => Nat.lcm (TimeSignature.to_128th t) acc)
            (TimeSignature.mk 3 BasicLength.Fourth).to_128th) /
            (TimeSignature.mk 3 BasicLength.Fourth).to_128th)
       else Except.error "Does not converge") :=
  ⟨⟨by decide, by decide⟩,
   claim_C2 (TimeSignature.mk 3 BasicLength.Fourth) TimeSignature.to_128th
     [TimeSignature.mk 4 BasicLength.Fourth] (by decide) (by decide)⟩

theorem dvdFoldlInit {T : Type} (to128 : T → Nat) (d : Nat) :
    ∀ (L : List T) (init : Nat), d ∣ init →
      d ∣ L.foldl (fun acc x => Nat.lcm (to128 x) acc) init := by
  intro L
  induction L with
  | nil => intro init h; simpa using h
  | cons x xs ih =>
    intro init h
    rw [List.foldl_cons]
    exact ih _ (h.trans (Nat.dvd_lcm_right _ _))

theorem memDvdFoldl {T : Type} (to128 : T → Nat) :
    ∀ (L : List T) (init : Nat) (t : T), t ∈ L →
      to128 t ∣ L.foldl (fun acc x => Nat.lcm (to128 x) acc) init := by
  intro L
  induction L with
  | nil =>
    intro init t ht
    simp at ht
  | cons x xs ih =>
    intro init t ht
    rw [List.foldl_cons]
    rcases List.mem_cons.mp ht with h | h
    · subst h
      exact dvdFoldlInit to128 (to128 t) xs _ (Nat.dvd_lcm_left _ _)
    · exact ih _ t h

/-- Claim C8: appending a redundant duplicate of an element already in the
pattern list does not change the result of converges. -/
theorem claim_C8 {T : Type} (ts : TimeSignature) (to128 : T → Nat) (L : List T) (t : T)
    (hnum : 0 < ts.numerator) (hpos : ∀ x ∈ L, 0 < to128 x) (hmem : t ∈ L) :
    ts.converges to128 (L ++ [t]) = ts.converges to128 L := by
  have hpos2 : ∀ x ∈ L ++ [t], 0 < to128 x := by
    intro x hx
    rcases List.mem_append.mp hx with h | h
    · exact hpos x h
    · rw [List.mem_singleton.mp h]
      exact hpos t hmem
  rw [converges_eq ts to128 (L ++ [t]) hnum hpos2, converges_eq ts to128 L hnum hpos]
  have hfold : (L ++ [t]).foldl (fun acc x => Nat.lcm (to128 x) acc) ts.to_128th =
      L.foldl (fun acc x => Nat.lcm (to128 x) acc) ts.to_128th := by
    rw [List.foldl_append, List.foldl_cons, List.foldl_nil]
    exact Nat.dvd_antisymm
      (Nat.lcm_dvd (memDvdFoldl to128 L ts.to_128th t hmem) dvd_rfl)
      (Nat.dvd_lcm_right _ _)
  rw [hfold]

/-- Witness for claim C8: duplicating the 3-Fourth pattern against a
4-Fourth reference meter. -/
theorem claim_C8_witness :
    (0 < (TimeSignature.mk 4 BasicLength.Fourth).numerator ∧
     (∀ x ∈ [TimeSignature.mk 3 BasicLength.Fourth], 0 < TimeSignature.to_128th x) ∧
     TimeSignature.mk 3 BasicLength.Fourth ∈ [TimeSignature.mk 3 BasicLength.Fourth]) ∧
    TimeSignature.converges (TimeSignature.mk 4 BasicLength.Fourth)
        TimeSignature.to_128th
        ([TimeSignature.mk 3 BasicLength.Fourth] ++ [TimeSignature.mk 3 BasicLength.Fourth]) =
      TimeSignature.converges (TimeSignature.mk 4 BasicLength.Fourth)
        TimeSignature.to_128th [TimeSignature.mk 3 BasicLength.Fourth] :=
  ⟨⟨by decide, by decide, by decide⟩,
   claim_C8 (TimeSignature.mk 4 BasicLength.Fourth) TimeSignature.to_128th
     [TimeSignature.mk 3 BasicLength.Fourth] (TimeSignature.mk 3 BasicLength.Fourth)
     (by decide) (by decide) (by decide)⟩

/-- Result of a nom-style parser: success with the remaining input and a
value, or a recoverable error carrying the unconsumed input and the error
kind (nom's `IResult`). -/
inductive PResult (α : Type) where
  | ok (rem : List Char) (val : α)
  | err (rem : List Char) (kind : String)

/-- ASCII digit test, as used by nom's `digit1`. -/
def isDigitChar (c : Char) : Bool := '0' ≤ c && c ≤ '9'

/-- Numeric value of a digit string, as computed by `str::parse` on a
string of ASCII digits. -/
def natOfDigits (ds : List Char) : Nat :=
  ds.foldl (fun acc c => acc * 10 + (c.toNat - 48)) 0

/-- nom's `char(c)`: consume exactly the character `c`. -/
def char (c : Char) (input : List Char) : PResult Char :=
  match input with
  | [] => .err input "Char"
  | x :: rest => if x = c then .ok rest c else .err input "Char"

/-- nom's `digit1`: consume one or more ASCII digits. -/
def digit1 (input : List Char) : PResult (List Char) :=
  let ds := input.takeWhile isDigitChar
  if ds.isEmpty then .err input "Digit" else .ok (input.drop ds.length) ds

/-- The `hit` parser: `x` is a hit. -/
def hit (input : List Char) : PResult Note :=
  match char 'x' input with
  | .ok r _ => .ok r Note.Hit
  | .err r k => .err r k

/-- The `rest` parser: `-` is a rest. -/
def rest (input : List Char) : PResult Note :=
  match char '-' input with
  | .ok r _ => .ok r Note.Rest
  | .err r k => .err r k

/-- The `note` parser: `alt((hit, rest))`. -/
def note (input : List Char) : PResult Note :=
  match hit input with
  | .ok r v => .ok r v
  | .err _ _ => rest input

/-- The `length_basic` parser: one or more digits parsed as an integer
(`str::parse`, defaulting to `i32`), which must be one of the seven
permitted values; any other integer is a recoverable `Fail` error. -/
def length_basic (input : List Char) : PResult BasicLength :=
  match digit1 input with
  | .err r k => .err r k
  | .ok r ds =>
    let n := natOfDigits ds
    if n ≤ 2147483647 then
      if n = 1 then .ok r BasicLength.Whole
      else if n = 2 then .ok r BasicLength.Half
      else if n = 4 then .ok r BasicLength.Fourth
      else if n = 8 then .ok r BasicLength.Eighth
      else if n = 16 then .ok r BasicLength.Sixteenth
      else if n = 32 then .ok r BasicLength.ThirtySecond
      else if n = 64 then .ok r BasicLength.SixtyFourth
      else .err r "Fail"
    else .err input "MapRes"

/-- The `dotted_length` parser: `basic '.'`. -/
def dotted_length (input : List Char) : PResult ModdedLength :=
  match length_basic input with
  | .err r k => .err r k
  | .ok r1 l =>
    match char '.' r1 with
    | .err r k => .err r k
    | .ok r2 _ => .ok r2 (ModdedLength.Dotted l)

/-- The `modded_length` parser: dotted tried before plain. -/
def modded_length (input : List Char) : PResult ModdedLength :=
  match dotted_length input with
  | .ok r v => .ok r v
  | .err _ _ =>
    match length_basic input with
    | .ok r l => .ok r (ModdedLength.Plain l)
    | .err r k => .err r k

/-- The `triplet_length` parser: `modded 't'`. -/
def triplet_length (input : List Char) : PResult Length :=
  match modded_length input with
  | .err r k => .err r k
  | .ok r1 l =>
    match char 't' r1 with
    | .err r k => .err r k
    | .ok r2 _ => .ok r2 (Length.Triplet l)

/-- The `tied_length` parser: `modded '+' modded`. -/
def tied_length (input : List Char) : PResult Length :=
  match modded_length input with
  | .err r k => .err r k
  | .ok r1 x =>
    match char '+' r1 with
    | .err r k => .err r k
    | .ok r2 _ =>
      match modded_length r2 with
      | .err r k => .err r k
      | .ok r3 y => .ok r3 (Length.Tied x y)

/-- The `length` parser: triplet tried before tied before plain simple. -/
def length (input : List Char) : PResult Length :=
  match triplet_length input with
  | .ok r v => .ok r v
  | .err _ _ =>
    match tied_length input with
    | .ok r v => .ok r v
    | .err _ _ =>
      match modded_length input with
      | .ok r l => .ok r (Length.Simple l)
      | .err r k => .err r k

/-- The `times` parser: one or more digits parsed as a `u16` repeat count. -/
def times (input : List Char) : PResult Times :=
  match digit1 input with
  | .err r k => .err r k
  | .ok r ds =>
    let n := natOfDigits ds
    if n ≤ 65535 then .ok r (Times.mk n) else .err input "MapRes"

/-- The iteration loop of nom's `many1` after a first success, with an
explicit fuel bound standing in for the unbounded source loop; the fuel is
chosen so that it never runs out when the inner parser consumes input. -/
def many1Go {α : Type} (p : List Char → PResult α) :
    Nat → List Char → List α → PResult (List α)
  | 0, input, acc => .ok input acc.reverse
  | fuel+1, input, acc =>
    match p input with
    | .err _ _ => .ok input acc.reverse
    | .ok i1 o =>
      if i1 = input then .err input "Many1"
      else many1Go p fuel i1 (o :: acc)

/-- nom's `many1`: the inner parser must succeed at least once; iteration
stops at the first recoverable error. -/
def many1 {α : Type} (p : List Char → PResult α) (input : List Char) :
    PResult (List α) :=
  match p input with
  | .err r k => .err r k
  | .ok i1 o => many1Go p (input.length + 1) i1 [o]

/-- The `repeated` alternative inside `group`:
`tuple((times, char(','), length, many1(note)))`. -/
def group_repeated (input : List Char) : PResult (Times × Length × List Note) :=
  match times input with
  | .err r k => .err r k
  | .ok r1 t =>
    match char ',' r1 with
    | .err r k => .err r k
    | .ok r2 _ =>
      match length r2 with
      | .err r k => .err r k
      | .ok r3 l =>
        match many1 note r3 with
        | .err r k => .err r k
        | .ok r4 ns => .ok r4 (t, l, ns)

/-- The `single` alternative inside `group`:
`tuple((length, many1(note)))` with a default repeat count of 1. -/
def group_single (input : List Char) : PResult (Times × Length × List Note) :=
  match length input with
  | .err r k => .err r k
  | .ok r1 l =>
    match many1 note r1 with
    | .err r k => .err r k
    | .ok r2 ns => .ok r2 (Times.mk 1, l, ns)

/-- The `group` parser: `alt((repeated, single))`, then wrap the parsed
notes as `SingleNote` children of a `Group`. -/
def group (input : List Char) : PResult Group :=
  match (match group_repeated input with
         | .ok r v => PResult.ok r v
         | .err _ _ => group_single input) with
  | .ok rem (t, l, ns) =>
    .ok rem (Group.mk (ns.map (fun x => GroupOrNote.SingleNote x)) l t)
  | .err r k => .err r k

/-- The `delimited_group` parser: `'(' group ')'`. -/
def delimited_group (input : List Char) : PResult Group :=
  match char '(' input with
  | .err r k => .err r k
  | .ok r1 _ =>
    match group r1 with
    | .err r k => .err r k
    | .ok r2 g =>
      match char ')' r2 with
      | .err r k => .err r k
      | .ok r3 _ => .ok r3 g

/-- The `group_or_delimited_group` parser: delimited tried before bare. -/
def group_or_delimited_group (input : List Char) : PResult Group :=
  match delimited_group input with
  | .ok r v => .ok r v
  | .err _ _ => group input

/-- The `groups` parser: `many1(group_or_delimited_group)`. -/
def groups (input : List Char) : PResult (List Group) :=
  many1 group_or_delimited_group input

/-- Result of Rust's `FromStr::from_str`, with an explicit constructor for
a `panic!`. -/
inductive FromStrResult where
  | ok (b : BasicLength)
  | err (msg : String)
  | panics (msg : String)

/-- Rust's `str::parse::<u16>`: an optional leading `+` sign, then one or
more ASCII digits, the whole string consumed, value at most 65535. -/
def parse_u16 (s : List Char) : Except String Nat :=
  let ds := match s with
            | '+' :: rest => rest
            | _ => s
  if ds.isEmpty then .error "cannot parse integer from empty string"
  else if ds.all (fun c => isDigitChar c) then
    let n := natOfDigits ds
    if n ≤ 65535 then .ok n else .error "number too large to fit in target type"
  else .error "invalid digit found in string"

/-- `impl FromStr for BasicLength`: parse the string as a `u16` and feed it
to `from_num`; a failed integer parse hits the `panic!` arm. -/
def from_str (s : List Char) : FromStrResult :=
  match parse_u16 s with
  | .ok n =>
    match BasicLength.from_num n with
    | .ok b => .ok b
    | .error e => .err e
  | .error e => .panics e

/-- A Group whose direct children are all leaves. -/
def onlySingleNotes (g : Group) : Prop :=
  ∀ c ∈ g.notes, ∃ n, c = GroupOrNote.SingleNote n

theorem group_onlySingleNotes (input r : List Char) (g : Group)
    (h : group input = PResult.ok r g) : onlySingleNotes g := by
  unfold group at h
  cases hrep : group_repeated input with
  | ok rr v =>
    obtain ⟨t, l, ns⟩ := v
    rw [hrep] at h
    simp at h
    obtain ⟨h1, h2⟩ := h
    subst h2
    intro c hc
    simp [Group.notes] at hc
    obtain ⟨n, hn, hcn⟩ := hc
    exact ⟨n, hcn.symm⟩
  | err rr kk =>
    rw [hrep] at h
    cases hsing : group_single input with
    | ok rr2 v =>
      obtain ⟨t, l, ns⟩ := v
      rw [hsing] at h
      simp at h
      obtain ⟨h1, h2⟩ := h
      subst h2
      intro c hc
      simp [Group.notes] at hc
      obtain ⟨n, hn, hcn⟩ := hc
      exact ⟨n, hcn.symm⟩
    | err rr2 kk2 =>
      rw [hsing] at h
      simp at h

theorem delimited_group_inv (input r : List Char) (g : Group)
    (h : delimited_group input = PResult.ok r g) :
    ∃ i2 r2, group i2 = PResult.ok r2 g := by
  unfold delimited_group at h
  cases h1 : char '(' input with
  | err a b => rw [h1] at h; simp at h
  | ok r1 c =>
    rw [h1] at h
    dsimp only at h
    cases h2 : group r1 with
    | err a b => rw [h2] at h; simp at h
    | ok r2 g2 =>
      rw [h2] at h
      dsimp only at h
      cases h3 : char ')' r2 with
      | err a b => rw [h3] at h; simp at h
      | ok r3 c2 =>
        rw [h3] at h
        simp at h
        exact ⟨r1, r2, by rw [h2, h.2]⟩

theorem gdg_onlySingleNotes (input r : List Char) (g : Group)
    (h : group_or_delimited_group input = PResult.ok r g) : onlySingleNotes g := by
  unfold group_or_delimited_group at h
  cases hdel : delimited_group input with
  | ok rr v =>
    rw [hdel] at h
    simp at h
    obtain ⟨i2, r2, hg⟩ := delimited_group_inv input rr v hdel
    rw [← h.2]
    exact group_onlySingleNotes i2 r2 v hg
  | err rr kk =>
    rw [hdel] at h
    exact group_onlySingleNotes input r g h

theorem many1Go_all {α : Type} (p : List Char → PResult α) (P : α → Prop)
    (hp : ∀ i r a, p i = PResult.ok r a → P a) :
    ∀ fuel input acc, (∀ a ∈ acc, P a) →
      ∀ r out, many1Go p fuel input acc = PResult.ok r out → ∀ a ∈ out, P a := by
  intro fuel
  induction fuel with
  | zero =>
    intro input acc hacc r out h a ha
    simp [many1Go] at h
    rw [← h.2] at ha
    exact hacc a (List.mem_reverse.mp ha)
  | succ n ih =>
    intro input acc hacc r out h a ha
    cases hpi : p input with
    | err rr kk =>
      simp [many1Go, hpi] at h
      rw [← h.2] at ha
      exact hacc a (List.mem_reverse.mp ha)
    | ok i1 o =>
      by_cases heq : i1 = input
      · simp [many1Go, hpi, heq] at h
      · simp only [many1Go, hpi, heq, if_false, reduceIte] at h
        refine ih i1 (o :: acc) ?_ r out h a ha
        intro x hx
        rcases List.mem_cons.mp hx with h2 | h2
        · rw [h2]
          exact hp input i1 o hpi
        · exact hacc x h2

theorem many1_all {α : Type} (p : List Char → PResult α) (P : α → Prop)
    (hp : ∀ i r a, p i = PResult.ok r a → P a) :
    ∀ input r out, many1 p input = PResult.ok r out → ∀ a ∈ out, P a := by
  intro input r out h a ha
  unfold many1 at h
  cases hpi : p input with
  | err rr kk => rw [hpi] at h; simp at h
  | ok i1 o =>
    rw [hpi] at h
    refine many1Go_all p P hp (input.length + 1) i1 [o] ?_ r out h a ha
    intro x hx
    rw [List.mem_singleton.mp hx]
    exact hp input i1 o hpi

/-- Claim C10: every Group the parser produces — through group,
group_or_delimited_group, or groups — has only SingleNote (leaf) children,
so every parsed tree has depth exactly one. -/
theorem claim_C10 :
    (∀ input r g, group input = PResult.ok r g →
      ∀ c ∈ Group.notes g, ∃ n, c = GroupOrNote.SingleNote n) ∧
    (∀ input r g, group_or_delimited_group input = PResult.ok r g →
      ∀ c ∈ Group.notes g, ∃ n, c = GroupOrNote.SingleNote n) ∧
    (∀ input r gs, groups input = PResult.ok r gs →
      ∀ g ∈ gs, ∀ c ∈ Group.notes g, ∃ n, c = GroupOrNote.SingleNote n) := by
  refine ⟨group_onlySingleNotes, gdg_onlySingleNotes, ?_⟩
  intro input r gs h
  exact many1_all group_or_delimited_group onlySingleNotes gdg_onlySingleNotes input r gs h

/-- Witness for claim C10 on the concrete input "16x". -/
theorem claim_C10_witness :
    groups ('1' :: '6' :: 'x' :: []) = PResult.ok []
      [Group.mk [GroupOrNote.SingleNote Note.Hit]
        (Length.Simple (ModdedLength.Plain BasicLength.Sixteenth)) (Times.mk 1)] ∧
    (∀ g ∈ [Group.mk [GroupOrNote.SingleNote Note.Hit]
        (Length.Simple (ModdedLength.Plain BasicLength.Sixteenth)) (Times.mk 1)],
      ∀ c ∈ Group.notes g, ∃ n, c = GroupOrNote.SingleNote n) :=
  ⟨rfl, claim_C10.2.2 ('1' :: '6' :: 'x' :: []) [] _ rfl⟩

/-- Claim C9: when the leading digit run of the input denotes an integer
outside the permitted set, length_basic returns a recoverable error — the
value is never mapped to a neighboring permitted length — and concretely the
input "3xx" produces no Group. -/
theorem claim_C9 (input r ds : List Char)
    (hdig : digit1 input = PResult.ok r ds)
    (hn : natOfDigits ds ∉ [1, 2, 4, 8, 16, 32, 64]) :
    (∃ r2 k, length_basic input = PResult.err r2 k) ∧
    (∃ r2 k, group ('3' :: 'x' :: 'x' :: []) = PResult.err r2 k) := by
  constructor
  · have h1 : natOfDigits ds ≠ 1 := fun h => hn (by simp [h])
    have h2 : natOfDigits ds ≠ 2 := fun h => hn (by simp [h])
    have h4 : natOfDigits ds ≠ 4 := fun h => hn (by simp [h])
    have h8 : natOfDigits ds ≠ 8 := fun h => hn (by simp [h])
    have h16 : natOfDigits ds ≠ 16 := fun h => hn (by simp [h])
    have h32 : natOfDigits ds ≠ 32 := fun h => hn (by simp [h])
    have h64 : natOfDigits ds ≠ 64 := fun h => hn (by simp [h])
    unfold length_basic
    rw [hdig]
    by_cases hbig : natOfDigits ds ≤ 2147483647
    · exact ⟨r, "Fail", by simp [hbig, h1, h2, h4, h8, h16, h32, h64]⟩
    · exact ⟨input, "MapRes", by simp [hbig]⟩
  · exact ⟨['x', 'x'], "Fail", rfl⟩

/-- Witness for claim C9 on the concrete input "3xx". -/
theorem claim_C9_witness :
    (digit1 ('3' :: 'x' :: 'x' :: []) = PResult.ok ('x' :: 'x' :: []) ['3'] ∧
     natOfDigits ['3'] ∉ [1, 2, 4, 8, 16, 32, 64]) ∧
    ((∃ r2 k, length_basic ('3' :: 'x' :: 'x' :: []) = PResult.err r2 k) ∧
     (∃ r2 k, group ('3' :: 'x' :: 'x' :: []) = PResult.err r2 k)) :=
  ⟨⟨rfl, by decide⟩, claim_C9 ('3' :: 'x' :: 'x' :: []) ('x' :: 'x' :: []) ['3'] rfl (by decide)⟩

theorem group_repeated_times (input rr : List Char) (t : Times) (l : Length)
    (ns : List Note) (h : group_repeated input = PResult.ok rr (t, l, ns)) :
    ∃ r1, times input = PResult.ok r1 t := by
  unfold group_repeated at h
  cases h1 : times input with
  | err a b => rw [h1] at h; simp at h
  | ok r1 t2 =>
    rw [h1] at h
    dsimp only at h
    cases h2 : char ',' r1 with
    | err a b => rw [h2] at h; simp at h
    | ok r2 c =>
      rw [h2] at h
      dsimp only at h
      cases h3 : length r2 with
      | err a b => rw [h3] at h; simp at h
      | ok r3 l2 =>
        rw [h3] at h
        dsimp only at h
        cases h4 : many1 note r3 with
        | err a b => rw [h4] at h; simp at h
        | ok r4 ns2 =>
          rw [h4] at h
          simp at h
          exact ⟨r1, by rw [h.2.1]⟩

theorem group_single_times (input rr : List Char) (t : Times) (l : Length)
    (ns : List Note) (h : group_single input = PResult.ok rr (t, l, ns)) :
    t = Times.mk 1 := by
  unfold group_single at h
  cases h1 : length input with
  | err a b => rw [h1] at h; simp at h
  | ok r1 l2 =>
    rw [h1] at h
    dsimp only at h
    cases h2 : many1 note r1 with
    | err a b => rw [h2] at h; simp at h
    | ok r2 ns2 =>
      rw [h2] at h
      simp at h
      exact h.2.1.symm

/-- Counterexample to claim C3 as stated: parsing "0,16x" succeeds and yields
a Group whose repeat count is 0, so a parse can produce a RepeatCount of 0. -/
theorem claim_C3_counterexample :
    group ('0' :: ',' :: '1' :: '6' :: 'x' :: []) =
      PResult.ok [] (Group.mk [GroupOrNote.SingleNote Note.Hit]
        (Length.Simple (ModdedLength.Plain BasicLength.Sixteenth)) (Times.mk 0)) := rfl

/-- Claim C3 (amended): for every input accepted by the group parser, the
Group's repeat count equals the parsed integer of the optional digit prefix —
which may be 0 — and defaults to 1 when the repeated alternative fails; so
the repeat count is at least 1 unless the prefix integer is literally 0. -/
theorem claim_C3 (input r : List Char) (g : Group)
    (h : group input = PResult.ok r g) :
    1 ≤ (Group.times g).val ∨ (∃ r2, times input = PResult.ok r2 (Times.mk 0)) := by
  unfold group at h
  cases hrep : group_repeated input with
  | ok rr v =>
    obtain ⟨t, l, ns⟩ := v
    rw [hrep] at h
    simp at h
    obtain ⟨h1, h2⟩ := h
    obtain ⟨r1, ht⟩ := group_repeated_times input rr t l ns hrep
    rcases Nat.eq_zero_or_pos t.val with hz | hpos
    · right
      refine ⟨r1, ?_⟩
      have h0 : t = Times.mk 0 := by
        cases t
        simp at hz
        rw [hz]
      rw [ht, h0]
    · left
      rw [← h2]
      simpa [Group.times] using hpos
  | err rr kk =>
    rw [hrep] at h
    cases hsing : group_single input with
    | ok rr2 v =>
      obtain ⟨t, l, ns⟩ := v
      rw [hsing] at h
      simp at h
      obtain ⟨h1, h2⟩ := h
      have h1t := group_single_times input rr2 t l ns hsing
      left
      rw [← h2, h1t]
      simp [Group.times]
    | err rr2 kk2 =>
      rw [hsing] at h
      simp at h

/-- Witness for the amended claim C3 on the concrete input "3,16xx". -/
theorem claim_C3_witness :
    group ('3' :: ',' :: '1' :: '6' :: 'x' :: 'x' :: []) =
      PResult.ok [] (Group.mk
        [GroupOrNote.SingleNote Note.Hit, GroupOrNote.SingleNote Note.Hit]
        (Length.Simple (ModdedLength.Plain BasicLength.Sixteenth)) (Times.mk 3)) ∧
    (1 ≤ (Group.times (Group.mk
        [GroupOrNote.SingleNote Note.Hit, GroupOrNote.SingleNote Note.Hit]
        (Length.Simple (ModdedLength.Plain BasicLength.Sixteenth)) (Times.mk 3))).val ∨
     (∃ r2, times ('3' :: ',' :: '1' :: '6' :: 'x' :: 'x' :: []) =
        PResult.ok r2 (Times.mk 0))) :=
  ⟨rfl, claim_C3 ('3' :: ',' :: '1' :: '6' :: 'x' :: 'x' :: []) [] _ rfl⟩

/-- Counterexample to claim C4 as stated: the BasicLength text-parsing entry
point panics on an input whose integer parse fails. -/
theorem claim_C4_counterexample :
    from_str ('a' :: 'b' :: 'c' :: []) =
      FromStrResult.panics "invalid digit found in string" := rfl

/-- Claim C4 (amended): groups and group_or_delimited_group always return a
recoverable result — ok with the parsed value, or err carrying the unconsumed
input and a reason — with no panic outcome; the BasicLength FromStr entry
point, however, panics exactly when integer parsing of its input fails, and
only returns a recoverable result for parseable integers. -/
theorem claim_C4 (input : List Char) :
    ((∃ r v, groups input = PResult.ok r v) ∨
     (∃ r k, groups input = PResult.err r k)) ∧
    ((∃ r v, group_or_delimited_group input = PResult.ok r v) ∨
     (∃ r k, group_or_delimited_group input = PResult.err r k)) ∧
    ((∃ m, from_str input = FromStrResult.panics m) ↔
     (∃ m, parse_u16 input = Except.error m)) := by
  refine ⟨?_, ?_, ?_, ?_⟩
  · cases h : groups input with
    | ok r v => exact Or.inl ⟨r, v, rfl⟩
    | err r k => exact Or.inr ⟨r, k, rfl⟩
  · cases h : group_or_delimited_group input with
    | ok r v => exact Or.inl ⟨r, v, rfl⟩
    | err r k => exact Or.inr ⟨r, k, rfl⟩
  · rintro ⟨m, hm⟩
    unfold from_str at hm
    cases hp : parse_u16 input with
    | ok n =>
      rw [hp] at hm
      dsimp only at hm
      cases hfn : BasicLength.from_num n with
      | ok b => rw [hfn] at hm; simp at hm
      | error e => rw [hfn] at hm; simp at hm
    | error e => exact ⟨e, rfl⟩
  · rintro ⟨m, hm⟩
    refine ⟨m, ?_⟩
    unfold from_str
    rw [hm]

end Poly
